import Mathlib

/-!
Verification development for the hemo repository (scripts/scaling_net.py).
The Python functions are shallowly embedded as Lean definitions: the
networkx DiGraph is a record of node list, edge list and graph attributes;
mutable node/edge attribute dictionaries are modelled as functions passed
and returned explicitly; Python exceptions are modelled with Option.
-/

namespace Hemo

/-- Node role tag: the `ntype` node attribute (`internal`, `source`, `sink`). -/
inductive Ntype where
  | internal : Ntype
  | source : Ntype
  | sink : Ntype
deriving DecidableEq, Repr

/-- Embedding of the networkx DiGraph as consumed by the metric and switch
functions: node list, directed edge list, and the graph-level designated
`source` and `sink` attributes (`G.graph['source']`, `G.graph['sink']`). -/
structure Graph (V : Type) where
  nodes : List V
  edges : List (V × V)
  source : V
  sink : V

/-- Out-neighbours of `u`: targets of directed edges leaving `u`. -/
def nbrs {V : Type} [DecidableEq V] (edges : List (V × V)) (u : V) : List V :=
  edges.filterMap fun e => if e.1 = u then some e.2 else none

/-- Nodes reachable from `u` by a directed path of at most `k` edges. -/
def reach_within {V : Type} [DecidableEq V] (edges : List (V × V)) : V → ℕ → List V
  | u, 0 => [u]
  | u, k + 1 => u :: ((nbrs edges u).flatMap fun v => reach_within edges v k)

/-- Embedding of `nx.shortest_path_length(G, source := s, target := t)` on an
unweighted digraph: the least number of edges on a directed path from `s`
to `t`, searched up to `|V| - 1`; `none` models the `NetworkXNoPath`
exception. -/
def spl {V : Type} [DecidableEq V] (nodes : List V) (edges : List (V × V)) (s t : V) :
    Option ℕ :=
  (List.range nodes.length).find? fun d => decide (t ∈ reach_within edges s d)

/-- Embedding of the inner `dist_edge_node` helper of `central_difference`:
tries the distance from the edge's source endpoint to `node`, and on
`NetworkXNoPath` falls back to the distance from `node` to the edge's sink
endpoint (the fall-back result `none` models an uncaught exception). -/
def dist_edge_node {V : Type} [DecidableEq V] (G : Graph V) (e : V × V) (node : V) :
    Option ℕ :=
  match spl G.nodes G.edges e.1 node with
  | some d => some d
  | none => spl G.nodes G.edges node e.2

/-- Embedding of `central_difference(G, edge)`: absolute difference of the two
`dist_edge_node` queries against the designated `source` and `sink` graph
attributes; `none` models an uncaught exception. -/
def central_difference {V : Type} [DecidableEq V] (G : Graph V) (e : V × V) : Option ℤ :=
  match dist_edge_node G e G.source, dist_edge_node G e G.sink with
  | some d1, some d2 => some |(d1 : ℤ) - (d2 : ℤ)|
  | _, _ => none

/-- Modelled from the spec's words for claim C2 (refinement comparison only):
`d1` is the distance from the edge's source endpoint to the designated
`source` node, with fall-back substituting a path from the anchor to the
other endpoint. This coincides with the code's `d1`. -/
def dist_src_claim {V : Type} [DecidableEq V] (G : Graph V) (e : V × V) : Option ℕ :=
  match spl G.nodes G.edges e.1 G.source with
  | some d => some d
  | none => spl G.nodes G.edges G.source e.2

/-- Modelled from the spec's words for claim C2 (refinement comparison only):
`d2` is the distance from the edge's sink endpoint to the designated `sink`
node, with fall-back substituting a path from the anchor to the other
endpoint. The code instead starts its `d2` query at the source endpoint. -/
def dist_sink_claim {V : Type} [DecidableEq V] (G : Graph V) (e : V × V) : Option ℕ :=
  match spl G.nodes G.edges e.2 G.sink with
  | some d => some d
  | none => spl G.nodes G.edges G.sink e.1

/-- Modelled from the spec's words for claim C2 (refinement comparison only):
`central_difference` as the spec describes it. -/
def central_difference_claim {V : Type} [DecidableEq V] (G : Graph V) (e : V × V) :
    Option ℤ :=
  match dist_src_claim G e, dist_sink_claim G e with
  | some d1, some d2 => some |(d1 : ℤ) - (d2 : ℤ)|
  | _, _ => none

/-- The radius exchange `temp = r[a]; r[a] = r[b]; r[b] = temp` performed by
both the repair passes and `make_switches`. -/
def swap_radii {E : Type} [DecidableEq E] {α : Type} (r : E → α) (a b : E) : E → α :=
  Function.update (Function.update r a (r b)) b (r a)

/-- One comparison of the repair pass body (lines 204-209 of
`create_network_multiple_sources_and_sinks`): the pair is skipped when the
two edges have equal source endpoints; otherwise the radii are swapped when
edge 1 has strictly greater `center_dist` and strictly smaller radius. -/
def repair_step {V α : Type} [DecidableEq V] [LinearOrder α] (cd : V × V → ℤ)
    (r : (V × V) → α) (e1 e2 : V × V) : (V × V) → α :=
  if e1.1 = e2.1 then r
  else if cd e1 > cd e2 ∧ r e1 < r e2 then swap_radii r e1 e2 else r

/-- One full repair pass: the nested ordered scan over all edge pairs. -/
def repair_pass {V α : Type} [DecidableEq V] [LinearOrder α] (cd : V × V → ℤ)
    (es : List (V × V)) (r : (V × V) → α) : (V × V) → α :=
  es.foldl (fun r1 e1 => es.foldl (fun r2 e2 => repair_step cd r2 e1 e2) r1) r

/-- `for _ in range(radii_iters)` around the repair pass. -/
def repair_passes {V α : Type} [DecidableEq V] [LinearOrder α] (cd : V × V → ℤ)
    (es : List (V × V)) : ℕ → ((V × V) → α) → ((V × V) → α)
  | 0, r => r
  | k + 1, r => repair_passes cd es k (repair_pass cd es r)

/-- The partner search of `make_switches` for a fixed edge 1: the first edge 2
in edge order that is not skipped (`src1 == src2 or sink1 == sink2`) and
satisfies `cd1 < cd2 and r1 > r2`. -/
def switch_partner {V α : Type} [DecidableEq V] [LinearOrder α] (cd : V × V → ℤ)
    (r : (V × V) → α) (es : List (V × V)) (e1 : V × V) : Option (V × V) :=
  es.find? fun e2 =>
    decide (¬(e1.1 = e2.1 ∨ e1.2 = e2.2) ∧ cd e1 < cd e2 ∧ r e2 < r e1)

/-- One outer iteration of `make_switches`: swap with the first matching
partner and stop scanning (the `break`), or leave the radii unchanged. -/
def switch_step {V α : Type} [DecidableEq V] [LinearOrder α] (cd : V × V → ℤ)
    (es : List (V × V)) (r : (V × V) → α) (e1 : V × V) : (V × V) → α :=
  match switch_partner cd r es e1 with
  | some e2 => swap_radii r e1 e2
  | none => r

/-- The full double loop of `make_switches`, abstracted over the central
difference values (which do not depend on the mutated radii). -/
def make_switches_core {V α : Type} [DecidableEq V] [LinearOrder α] (cd : V × V → ℤ)
    (es : List (V × V)) (r : (V × V) → α) : (V × V) → α :=
  es.foldl (switch_step cd es) r

/-- Embedding of `make_switches(G)` acting on the radius attribute map:
`none` models an uncaught `NetworkXNoPath` escaping from one of the
`central_difference` calls (every edge's central difference is computed by
the outer loop). -/
def make_switches {V α : Type} [DecidableEq V] [LinearOrder α] (G : Graph V)
    (r : (V × V) → α) : Option ((V × V) → α) :=
  if G.edges.all fun e => (central_difference G e).isSome then
    some (make_switches_core (fun e => (central_difference G e).getD 0) G.edges r)
  else none

/-- Python's `0 if len(l) == 0 else min(l)` used by
`assign_distances_from_source_and_sink_nodes`. -/
def min_or_zero : List ℕ → ℕ
  | [] => 0
  | x :: xs => xs.foldl min x

/-- Embedding of the per-edge body of
`assign_distances_from_source_and_sink_nodes`: collects the source-role and
sink-role nodes, gathers the successful shortest-path queries (the
`try/except pass` drops failures), and returns
`(src_dist, sink_dist, center_dist)` for the edge. -/
def assign_distances {V : Type} [DecidableEq V] (nodes : List V) (edges : List (V × V))
    (ntype : V → Ntype) (e : V × V) : ℕ × ℕ × ℤ :=
  let source_nodes := nodes.filter fun n => ntype n = Ntype.source
  let sink_nodes := nodes.filter fun n => ntype n = Ntype.sink
  let src_dists := source_nodes.filterMap fun s => spl nodes edges s e.1
  let sink_dists := sink_nodes.filterMap fun t => spl nodes edges e.2 t
  let sd := min_or_zero src_dists
  let kd := min_or_zero sink_dists
  (sd, kd, |(sd : ℤ) - (kd : ℤ)|)

/-- Embedding of `total_flow(G)`: the `inverse_transit_time` and `volume`
edge attribute dictionaries are passed as functions. -/
def total_flow {V : Type} [DecidableEq V] (G : Graph V) (itt volume : V × V → ℝ) : ℝ :=
  G.edges.foldl (fun q e => if e.1 = G.source then q + itt e * volume e else q) 0

open Classical in
/-- Embedding of `total_resistance(G)`: `dp / q` with
`dp = 25 * 133.322387415`; `none` models the `ZeroDivisionError` Python
raises when the flow is zero. -/
noncomputable def total_resistance {V : Type} [DecidableEq V] (G : Graph V)
    (itt volume : V × V → ℝ) : Option ℝ :=
  if total_flow G itt volume = 0 then none
  else some (25 * 133.322387415 / total_flow G itt volume)

/-- Element-wise `Wt += c` against a column vector `c`, starting at time
index `k`: models the vectorised `Wt += 65 * volume * soln[:, col]`. -/
def add_col (c : ℕ → ℝ) : List ℝ → ℕ → List ℝ
  | [], _ => []
  | w :: ws, k => (w + c k) :: add_col c ws (k + 1)

/-- Embedding of `get_Wt(G, times, soln, liposomes)`: `soln` is the dense
solution array indexed `[time_step, state_index]`, `volume` and `idx` are
the edge attribute dictionaries. -/
def get_Wt {V : Type} [DecidableEq V] (G : Graph V) (volume : V × V → ℝ)
    (idx : V × V → ℕ) (times : List ℝ) (soln : ℕ → ℕ → ℝ) (liposomes : Bool) :
    List ℝ :=
  let n_edges := G.edges.length
  G.edges.foldl
    (fun Wt e =>
      add_col
        (fun t =>
          65 * volume e *
            soln t ((if liposomes then 2 * n_edges else n_edges) + idx e))
        Wt 0)
    (times.map fun _ => 0)

/-- Grid node of the lattice, identified by its grid indices `(x, y, z)`
(the integer-counter node ids of the code are in bijection with these via
the `vd` dictionary). -/
abbrev Node3 := ℕ × ℕ × ℕ

/-- Directed edge of the lattice graph. -/
abbrev Edge3 := Node3 × Node3

/-- The node set of `create_network_multiple_sources_and_sinks`: all grid
triples with indices in `[0, N)`. -/
def latticeNodes (N : ℕ) : List Node3 :=
  (List.range N).flatMap fun x =>
    (List.range N).flatMap fun y =>
      (List.range N).map fun z => (x, y, z)

/-- The node position attribute:
`pos = [delta*(x+1), delta*(y+1), delta*(z+1)]` with `delta = 1/(N+1)`. -/
noncomputable def pos3 (N : ℕ) (p : Node3) : ℝ × ℝ × ℝ :=
  (1 / (N + 1) * (p.1 + 1), 1 / (N + 1) * (p.2.1 + 1), 1 / (N + 1) * (p.2.2 + 1))

/-- The node role attribute after the source/sink marking loop: sources are
the checkerboard nodes (`x % 2 == y % 2`) of the `z = 0` face, sinks the
same columns of the `z = N-1` face; the sink assignment runs second, so it
wins when the two faces coincide (`N = 1`). -/
def ntype3 (N : ℕ) (p : Node3) : Ntype :=
  if p.2.2 = N - 1 ∧ p.1 % 2 = p.2.1 % 2 then Ntype.sink
  else if p.2.2 = 0 ∧ p.1 % 2 = p.2.1 % 2 then Ntype.source
  else Ntype.internal

/-- The edge-construction loop: each node is joined to its positive-direction
axis neighbours, with the boundary guards `x_idx < N-1` etc. -/
def latticeEdges (N : ℕ) : List Edge3 :=
  (List.range N).flatMap fun x =>
    (List.range N).flatMap fun y =>
      (List.range N).flatMap fun z =>
        (if x < N - 1 then [((x, y, z), (x + 1, y, z))] else []) ++
        (if y < N - 1 then [((x, y, z), (x, y + 1, z))] else []) ++
        (if z < N - 1 then [((x, y, z), (x, y, z + 1))] else [])

/-- The re-orientation step (`Ensure edges direct out from sources, in to
sinks`): an edge pointing into a source or out of a sink is removed and
re-added reversed. -/
def orientEdge (N : ℕ) (e : Edge3) : Edge3 :=
  if ntype3 N e.2 = Ntype.source ∨ ntype3 N e.1 = Ntype.sink then (e.2, e.1) else e

/-- The edge list of the built graph, after re-orientation. -/
def builtEdges (N : ℕ) : List Edge3 :=
  (latticeEdges N).map (orientEdge N)

/-- The lattice graph produced by
`create_network_multiple_sources_and_sinks`, with its node and edge
attribute maps. -/
structure LatticeGraph where
  nodes : List Node3
  edges : List Edge3
  ntype : Node3 → Ntype
  pos : Node3 → ℝ × ℝ × ℝ
  radius : Edge3 → ℝ

/-- The symmetric-mode radius value `1/((N+1)*np.sqrt(90*np.pi))`. -/
noncomputable def symRadiusVal (N : ℕ) : ℝ :=
  1 / ((N + 1) * Real.sqrt (90 * Real.pi))

/-- The symmetric-mode radius assignment loop: every edge's `radius`
attribute is set to `symRadiusVal N` (the attribute dictionary starts out
empty, modelled by the all-zero map). -/
noncomputable def assignSymRadii (N : ℕ) : Edge3 → ℝ :=
  (builtEdges N).foldl (fun r e => Function.update r e (symRadiusVal N)) fun _ => 0

/-- The `center_dist` values the random branch computes by calling
`assign_distances_from_source_and_sink_nodes` on the built lattice. -/
def latticeCenterDist (N : ℕ) (e : Edge3) : ℤ :=
  (assign_distances (latticeNodes N) (builtEdges N) (ntype3 N) e).2.2

/-- Embedding of `create_network_multiple_sources_and_sinks(N, radii_iters,
symmetric)`. The per-edge gamma draws of the random branch are supplied by
the `draw` argument (the ambient random source); the external collaborators
(`calculate_lengths`, `prep_net_for_sims`) are outside the core and add
only attributes not modelled here. The function performs no parameter
validation, exactly as the code does. -/
noncomputable def create_network_multiple_sources_and_sinks (N : ℕ)
    (radii_iters : ℕ) (symmetric : Bool) (draw : Edge3 → ℝ) : LatticeGraph :=
  { nodes := latticeNodes N
    edges := builtEdges N
    ntype := ntype3 N
    pos := pos3 N
    radius :=
      if symmetric then assignSymRadii N
      else repair_passes (latticeCenterDist N) (builtEdges N) radii_iters draw }

/-- `q` is the positive-direction axis neighbour of `p` along one of the
three grid axes. -/
def isPosNeighbor (p q : Node3) : Prop :=
  q = (p.1 + 1, p.2.1, p.2.2) ∨ q = (p.1, p.2.1 + 1, p.2.2) ∨ q = (p.1, p.2.1, p.2.2 + 1)

/-- Concrete edge list for exercising the repair pass: two edges that share
their sink endpoint `2` but have distinct source endpoints. -/
def exEsC1 : List (ℕ × ℕ) := [(0, 2), (1, 2)]

/-- Concrete `center_dist` attribute values for `exEsC1`. -/
def exCdC1 : ℕ × ℕ → ℤ := fun e => if e = (0, 2) then 2 else 1

/-- Concrete initial radii (the gamma draws) for `exEsC1`. -/
def exRC1 : ℕ × ℕ → ℚ := fun e => if e = (0, 2) then 1 else 5

/-- Concrete three-node directed path graph `0 → 1 → 2` with designated
`source = 0` and `sink = 2`, for exercising `make_switches`. -/
def exG3 : Graph ℕ := ⟨[0, 1, 2], [(0, 1), (1, 2)], 0, 2⟩

/-- Concrete radii for the edges of `exG3`. -/
def exR3 : ℕ × ℕ → ℚ := fun e => if e = (0, 1) then 1 else 5

/-- Concrete four-node directed path graph `0 → 1 → 2 → 3` with designated
`source = 0` and `sink = 3`, for exercising `central_difference`. -/
def exP4 : Graph ℕ := ⟨[0, 1, 2, 3], [(0, 1), (1, 2), (2, 3)], 0, 3⟩

/-- Concrete role assignment for the nodes of `exG3`: node 0 is a source,
node 2 a sink, node 1 internal. -/
def exNt5 : ℕ → Ntype :=
  fun n => if n = 0 then Ntype.source else if n = 2 then Ntype.sink else Ntype.internal

/-- Concrete graph with a single node and no edges, for exercising the
zero-flow branch of `total_resistance`. -/
def exG0 : Graph ℕ := ⟨[0], [], 0, 0⟩

/-- Concrete graph with one edge leaving the designated source, for
exercising `get_Wt`. -/
def exG1 : Graph ℕ := ⟨[0, 1], [(0, 1)], 0, 1⟩

end Hemo

namespace Hemo

/-- C1 counterexample: with two edges sharing their sink endpoint `2`
(distinct sources), center distances `2 > 1` and radii `1 < 5`, the repair
passes of lines 201-209 swap the pair's radii, because the code skips a
pair only when the two source endpoints are equal. This falsifies the
claim that no pair of edges sharing an endpoint is ever swapped. -/
theorem repair_passes_shared_sink_swap :
    repair_passes exCdC1 exEsC1 2 exRC1 (0, 2) = 5 ∧
    repair_passes exCdC1 exEsC1 2 exRC1 (1, 2) = 1 ∧
    exRC1 (0, 2) = 1 ∧ exRC1 (1, 2) = 5 ∧
    ((0 : ℕ), (2 : ℕ)).2 = ((1 : ℕ), (2 : ℕ)).2 := by
  refine ⟨?_, ?_, ?_, ?_, rfl⟩ <;> decide

/-- C2: on the path graph `0 → 1 → 2 → 3` with designated source `0` and
sink `3`, `central_difference` of the edge `(1, 2)` returns `0`, because
the code starts its sink-distance query at the edge's *source* endpoint
(`d1 = 2` by fall-back, `d2 = dist(1, 3) = 2`), while its own docstring
("finds distance from source to e1 and from e2 to sink") and the spec
demand the sink distance of the sink endpoint (`dist(2, 3) = 1`), giving
`1`. -/
theorem central_difference_wrong_endpoint :
    central_difference exP4 (1, 2) = some 0 ∧
    central_difference_claim exP4 (1, 2) = some 1 ∧
    spl exP4.nodes exP4.edges 2 exP4.sink = some 1 ∧
    spl exP4.nodes exP4.edges 1 exP4.sink = some 2 := by
  refine ⟨?_, ?_, ?_, ?_⟩ <;> decide

/-- C3 counterexample: on the path graph `0 → 1 → 2`, the edges `(0, 1)` and
`(1, 2)` share the node `1` (the sink endpoint of the first is the source
endpoint of the second), yet `make_switches` swaps their radii (central
differences `1 < 2`, radii `5 > 1`): the code skips a pair only when the
two source endpoints coincide or the two sink endpoints coincide. This
falsifies the claim that no endpoint-sharing pair is ever swapped. -/
theorem make_switches_shared_endpoint_swap :
    (make_switches exG3 exR3).map (fun f => (f (0, 1), f (1, 2))) = some (5, 1) ∧
    exR3 (0, 1) = 1 ∧ exR3 (1, 2) = 5 ∧
    ((0 : ℕ), (1 : ℕ)).2 = ((1 : ℕ), (2 : ℕ)).1 := by
  refine ⟨?_, ?_, ?_, rfl⟩ <;> decide

/-- Value of a radius exchange at its first edge. -/
theorem swap_radii_fst {E α : Type} [DecidableEq E] (r : E → α) {a b : E} (hab : a ≠ b) :
    swap_radii r a b a = r b := by
  unfold swap_radii
  rw [Function.update_noteq hab, Function.update_same]

/-- Value of a radius exchange at its second edge. -/
theorem swap_radii_snd {E α : Type} [DecidableEq E] (r : E → α) (a b : E) :
    swap_radii r a b b = r a := by
  unfold swap_radii
  rw [Function.update_same]

/-- A radius exchange leaves every other edge's radius unchanged. -/
theorem swap_radii_other {E α : Type} [DecidableEq E] (r : E → α) {a b x : E}
    (hxa : x ≠ a) (hxb : x ≠ b) : swap_radii r a b x = r x := by
  unfold swap_radii
  rw [Function.update_noteq hxb, Function.update_noteq hxa]

/-- Exchanging the radii of two distinct listed edges permutes the list of
radii read off along a duplicate-free edge list. -/
theorem map_swap_radii_perm {E α : Type} [DecidableEq E] (r : E → α) {es : List E}
    {a b : E} (ha : a ∈ es) (hb : b ∈ es) (hab : a ≠ b) (hnd : es.Nodup) :
    (es.map (swap_radii r a b)).Perm (es.map r) := by
  have h1 : es.Perm (a :: es.erase a) := List.perm_cons_erase ha
  have hb' : b ∈ es.erase a := (List.mem_erase_of_ne (Ne.symm hab)).mpr hb
  have h2 : (es.erase a).Perm (b :: (es.erase a).erase b) := List.perm_cons_erase hb'
  have hperm : es.Perm (a :: b :: (es.erase a).erase b) := h1.trans (h2.cons a)
  have hnd2 : (a :: b :: (es.erase a).erase b).Nodup := hperm.nodup hnd
  have hal : a ∉ (es.erase a).erase b := by
    intro hx
    exact (List.nodup_cons.mp hnd2).1 (List.mem_cons_of_mem _ hx)
  have hbl : b ∉ (es.erase a).erase b := by
    intro hx
    exact (List.nodup_cons.mp (List.nodup_cons.mp hnd2).2).1 hx
  have hmapeq : ((es.erase a).erase b).map (swap_radii r a b) =
      ((es.erase a).erase b).map r := by
    refine List.map_congr_left fun x hx => ?_
    refine swap_radii_other r (fun h => hal (h ▸ hx)) (fun h => hbl (h ▸ hx))
  have step1 : (es.map (swap_radii r a b)).Perm
      ((a :: b :: (es.erase a).erase b).map (swap_radii r a b)) :=
    hperm.map _
  have step2 : (a :: b :: (es.erase a).erase b).map (swap_radii r a b) =
      r b :: r a :: ((es.erase a).erase b).map r := by
    simp only [List.map_cons, swap_radii_fst r hab, swap_radii_snd r a b, hmapeq]
  have step3 : (r b :: r a :: ((es.erase a).erase b).map r).Perm
      (r a :: r b :: ((es.erase a).erase b).map r) := List.Perm.swap _ _ _
  have step4 : (a :: b :: (es.erase a).erase b).map r =
      r a :: r b :: ((es.erase a).erase b).map r := by simp
  have step5 : (es.map (swap_radii r a b)).Perm
      (r a :: r b :: ((es.erase a).erase b).map r) :=
    (step2 ▸ step1).trans step3
  exact step5.trans (step4 ▸ (hperm.map r).symm)

/-- A fold preserves any invariant preserved by each of its steps. -/
theorem foldl_preserves {β σ : Type} {Q : σ → Prop} {step : σ → β → σ} :
    ∀ {l : List β}, (∀ t x, x ∈ l → Q t → Q (step t x)) → ∀ {s : σ}, Q s →
      Q (l.foldl step s) := by
  intro l
  induction l with
  | nil => intro _ s hs; exact hs
  | cons x xs ih =>
    intro h s hs
    simp only [List.foldl_cons]
    exact ih (fun t y hy => h t y (List.mem_cons_of_mem x hy))
      (h s x (List.mem_cons_self x xs) hs)

/-- One repair-pass comparison permutes the list of radii. -/
theorem map_repair_step_perm {V α : Type} [DecidableEq V] [LinearOrder α]
    (cd : V × V → ℤ) {es : List (V × V)} (r : (V × V) → α) {e1 e2 : V × V}
    (h1 : e1 ∈ es) (h2 : e2 ∈ es) (hnd : es.Nodup) :
    (es.map (repair_step cd r e1 e2)).Perm (es.map r) := by
  unfold repair_step
  split_ifs with h h'
  · exact List.Perm.refl _
  · exact map_swap_radii_perm r h1 h2 (fun he => h (he ▸ rfl)) hnd
  · exact List.Perm.refl _

/-- A full repair pass permutes the list of radii. -/
theorem repair_pass_radii_perm {V α : Type} [DecidableEq V] [LinearOrder α]
    (cd : V × V → ℤ) (es : List (V × V)) (r : (V × V) → α) (hnd : es.Nodup) :
    (es.map (repair_pass cd es r)).Perm (es.map r) := by
  unfold repair_pass
  refine foldl_preserves (Q := fun s => (es.map s).Perm (es.map r))
    (fun r1 e1 he1 hQ => ?_) (List.Perm.refl _)
  refine foldl_preserves (Q := fun s => (es.map s).Perm (es.map r))
    (fun r2 e2 he2 hQ2 => ?_) hQ
  exact (map_repair_step_perm cd r2 he1 he2 hnd).trans hQ2

/-- Any number of repair passes permutes the list of radii. -/
theorem repair_passes_radii_perm {V α : Type} [DecidableEq V] [LinearOrder α]
    (cd : V × V → ℤ) (es : List (V × V)) (k : ℕ) (r : (V × V) → α)
    (hnd : es.Nodup) :
    (es.map (repair_passes cd es k r)).Perm (es.map r) := by
  induction k generalizing r with
  | zero => exact List.Perm.refl _
  | succ k ih =>
    exact (ih (repair_pass cd es r)).trans (repair_pass_radii_perm cd es r hnd)

/-- A successful linear search splits its list at the first match. -/
theorem find?_eq_some_split {β : Type} {p : β → Bool} :
    ∀ {l : List β} {b : β}, l.find? p = some b →
      ∃ l1 l2, l = l1 ++ b :: l2 ∧ p b = true ∧ ∀ x ∈ l1, p x = false := by
  intro l
  induction l with
  | nil => intro b h; simp at h
  | cons a as ih =>
    intro b h
    by_cases hp : p a = true
    · rw [List.find?_cons_of_pos _ hp] at h
      cases h
      exact ⟨[], as, rfl, hp, by simp⟩
    · rw [List.find?_cons_of_neg _ (by simpa using hp)] at h
      obtain ⟨l1, l2, hsplit, hb, hl1⟩ := ih h
      refine ⟨a :: l1, l2, by rw [hsplit, List.cons_append], hb, ?_⟩
      intro x hx
      rcases List.mem_cons.mp hx with hx | hx
      · simpa [hx] using hp
      · exact hl1 x hx

/-- One outer `make_switches` iteration permutes the list of radii. -/
theorem map_switch_step_perm {V α : Type} [DecidableEq V] [LinearOrder α]
    (cd : V × V → ℤ) {es : List (V × V)} (r : (V × V) → α) {e1 : V × V}
    (h1 : e1 ∈ es) (hnd : es.Nodup) :
    (es.map (switch_step cd es r e1)).Perm (es.map r) := by
  unfold switch_step
  cases h : switch_partner cd r es e1 with
  | none => exact List.Perm.refl _
  | some e2 =>
    have h2 : e2 ∈ es := List.mem_of_find?_eq_some h
    have hpred := List.find?_some h
    have hpred' : ¬(e1.1 = e2.1 ∨ e1.2 = e2.2) ∧ cd e1 < cd e2 ∧ r e2 < r e1 :=
      of_decide_eq_true hpred
    exact map_swap_radii_perm r h1 h2
      (fun he => hpred'.1 (Or.inl (he ▸ rfl))) hnd

/-- The full `make_switches` scan permutes the list of radii. -/
theorem make_switches_core_radii_perm {V α : Type} [DecidableEq V] [LinearOrder α]
    (cd : V × V → ℤ) (es : List (V × V)) (r : (V × V) → α) (hnd : es.Nodup) :
    (es.map (make_switches_core cd es r)).Perm (es.map r) := by
  unfold make_switches_core
  refine foldl_preserves (Q := fun s => (es.map s).Perm (es.map r))
    (fun r1 e1 he1 hQ => ?_) (List.Perm.refl _)
  exact (map_switch_step_perm cd r1 he1 hnd).trans hQ

/-- C1 (amended): in random mode, after the per-edge gamma radius draws,
exactly `radii_iters` repair passes are performed; each pass is the nested
ordered scan over all edge pairs in which a comparison is skipped exactly
when the two edges have equal source endpoints (pairs sharing a sink
endpoint, or an endpoint in different positions, are still compared);
a compared pair is swapped exactly when edge 1 has strictly greater
`center_dist` and strictly smaller current radius than edge 2, exchanging
the two radii and touching no other edge; over a duplicate-free edge list
the passes only permute the multiset of radii. -/
theorem repair_passes_amended_spec {V α : Type} [DecidableEq V] [LinearOrder α]
    (cd : V × V → ℤ) (es : List (V × V)) (hnd : es.Nodup) (r : (V × V) → α)
    (k : ℕ) (e1 e2 : V × V) :
    repair_passes cd es 0 r = r ∧
    repair_passes cd es (k + 1) r = repair_passes cd es k (repair_pass cd es r) ∧
    repair_pass cd es r =
      es.foldl (fun r1 f1 => es.foldl (fun r2 f2 => repair_step cd r2 f1 f2) r1) r ∧
    (e1.1 = e2.1 → repair_step cd r e1 e2 = r) ∧
    (e1.1 ≠ e2.1 → cd e1 > cd e2 → r e1 < r e2 →
      repair_step cd r e1 e2 e1 = r e2 ∧ repair_step cd r e1 e2 e2 = r e1 ∧
      ∀ x, x ≠ e1 → x ≠ e2 → repair_step cd r e1 e2 x = r x) ∧
    (e1.1 ≠ e2.1 → ¬(cd e1 > cd e2 ∧ r e1 < r e2) → repair_step cd r e1 e2 = r) ∧
    (es.map (repair_passes cd es k r)).Perm (es.map r) := by
  have hne : e1.1 ≠ e2.1 → e1 ≠ e2 := fun h he => h (he ▸ rfl)
  refine ⟨rfl, rfl, rfl, ?_, ?_, ?_, repair_passes_radii_perm cd es k r hnd⟩
  · intro h
    unfold repair_step
    rw [if_pos h]
  · intro h hcd hr
    unfold repair_step
    rw [if_neg h, if_pos ⟨hcd, hr⟩]
    exact ⟨swap_radii_fst r (hne h), swap_radii_snd r e1 e2,
      fun x hx1 hx2 => swap_radii_other r hx1 hx2⟩
  · intro h hcond
    unfold repair_step
    rw [if_neg h, if_neg hcond]

/-- C1 witness: the amended repair-pass description applied to the concrete
two-edge configuration of the counterexample. -/
theorem repair_passes_amended_spec_witness :
    (exEsC1.map (repair_passes exCdC1 exEsC1 2 exRC1)).Perm (exEsC1.map exRC1) :=
  (repair_passes_amended_spec exCdC1 exEsC1 (by decide) exRC1 2 (0, 2)
    (1, 2)).2.2.2.2.2.2

/-- C3 (amended): `make_switches` scans every edge exactly once, in order;
for edge 1 it searches the edge list for the first partner edge 2 whose
source endpoint differs from edge 1's source endpoint and whose sink
endpoint differs from edge 1's sink endpoint (an endpoint shared in
different positions does not disqualify a pair) and for which edge 1 has
strictly smaller central difference and strictly larger radius; if found it
swaps exactly that pair's radii and stops scanning partners for edge 1
(first match, not best match), otherwise edge 1's scan changes nothing;
over a duplicate-free edge list the whole scan permutes the multiset of
radii; on a graph the scan runs when every edge's central difference is
defined. -/
theorem make_switches_amended_spec {V α : Type} [DecidableEq V] [LinearOrder α]
    (cd : V × V → ℤ) (es : List (V × V)) (hnd : es.Nodup) (r : (V × V) → α)
    (e1 e2 : V × V) :
    make_switches_core cd es r = es.foldl (switch_step cd es) r ∧
    (switch_partner cd r es e1 = some e2 →
      e2 ∈ es ∧ e1.1 ≠ e2.1 ∧ e1.2 ≠ e2.2 ∧ cd e1 < cd e2 ∧ r e2 < r e1 ∧
      switch_step cd es r e1 = swap_radii r e1 e2 ∧
      ∃ l1 l2, es = l1 ++ e2 :: l2 ∧ ∀ x ∈ l1,
        ¬(¬(e1.1 = x.1 ∨ e1.2 = x.2) ∧ cd e1 < cd x ∧ r x < r e1)) ∧
    (switch_partner cd r es e1 = none → switch_step cd es r e1 = r) ∧
    (switch_partner cd r es e1 = none ↔ ∀ x ∈ es,
      ¬(¬(e1.1 = x.1 ∨ e1.2 = x.2) ∧ cd e1 < cd x ∧ r x < r e1)) ∧
    (es.map (make_switches_core cd es r)).Perm (es.map r) ∧
    ∀ G : Graph V, G.edges = es →
      (∀ e ∈ es, (central_difference G e).isSome) →
      make_switches G r =
        some (make_switches_core (fun e => (central_difference G e).getD 0) es r) := by
  refine ⟨rfl, ?_, ?_, ?_, make_switches_core_radii_perm cd es r hnd, ?_⟩
  · intro h
    have hstep : switch_step cd es r e1 = swap_radii r e1 e2 := by
      unfold switch_step
      rw [h]
    unfold switch_partner at h
    have h2 : e2 ∈ es := List.mem_of_find?_eq_some h
    have hsome := List.find?_some h
    have hpred : ¬(e1.1 = e2.1 ∨ e1.2 = e2.2) ∧ cd e1 < cd e2 ∧ r e2 < r e1 :=
      of_decide_eq_true hsome
    obtain ⟨l1, l2, hsplit, _, hfirst⟩ := find?_eq_some_split h
    refine ⟨h2, fun hc => hpred.1 (Or.inl hc), fun hc => hpred.1 (Or.inr hc),
      hpred.2.1, hpred.2.2, hstep, l1, l2, hsplit, ?_⟩
    intro x hx hcontra
    have := hfirst x hx
    rw [decide_eq_false_iff_not] at this
    exact this hcontra
  · intro h
    unfold switch_step
    rw [h]
  · unfold switch_partner
    constructor
    · intro h x hx
      have := List.find?_eq_none.mp h x hx
      exact fun hp => this (decide_eq_true hp)
    · intro h
      refine List.find?_eq_none.mpr fun x hx => ?_
      exact fun hd => h x hx (of_decide_eq_true hd)
  · intro G hGes hall
    unfold make_switches
    rw [hGes, if_pos (List.all_eq_true.mpr fun e he => hall e he)]

/-- C3 witness: the amended `make_switches` description applied to the
concrete path graph of the counterexample. -/
theorem make_switches_amended_spec_witness :
    (exG3.edges.map
        (make_switches_core (fun e => (central_difference exG3 e).getD 0)
          exG3.edges exR3)).Perm (exG3.edges.map exR3) :=
  (make_switches_amended_spec (fun e => (central_difference exG3 e).getD 0)
    exG3.edges (by decide) exR3 (0, 1) (1, 2)).2.2.2.2.1

/-- Membership in a conditional singleton list. -/
theorem mem_ite_singleton {β : Type} {c : Prop} [Decidable c] {a e : β} :
    (e ∈ if c then [a] else []) ↔ c ∧ e = a := by
  split_ifs with h <;> simp [h]

/-- Characterisation of the lattice edge list: an edge joins a grid node to
its positive-direction neighbour along one of the three axes, subject to
the boundary guards of the construction loop. -/
theorem mem_latticeEdges {N : ℕ} {e : Edge3} :
    e ∈ latticeEdges N ↔ ∃ x y z, x < N ∧ y < N ∧ z < N ∧
      ((x < N - 1 ∧ e = ((x, y, z), (x + 1, y, z))) ∨
       (y < N - 1 ∧ e = ((x, y, z), (x, y + 1, z))) ∨
       (z < N - 1 ∧ e = ((x, y, z), (x, y, z + 1)))) := by
  simp only [latticeEdges, List.mem_flatMap, List.mem_range, List.mem_append,
    mem_ite_singleton]
  constructor
  · rintro ⟨x, hx, y, hy, z, hz, h⟩
    exact ⟨x, y, z, hx, hy, hz, by tauto⟩
  · rintro ⟨x, y, z, hx, hy, hz, h⟩
    exact ⟨x, hx, y, hy, z, hz, by tauto⟩

/-- Arithmetic characterisation of the sink role. -/
theorem ntype3_eq_sink_iff {N : ℕ} {p : Node3} :
    ntype3 N p = Ntype.sink ↔ p.2.2 = N - 1 ∧ p.1 % 2 = p.2.1 % 2 := by
  unfold ntype3
  split_ifs with h1 h2 <;> simp_all

/-- Arithmetic characterisation of the source role. -/
theorem ntype3_eq_source_iff {N : ℕ} {p : Node3} :
    ntype3 N p = Ntype.source ↔
      ¬(p.2.2 = N - 1 ∧ p.1 % 2 = p.2.1 % 2) ∧ p.2.2 = 0 ∧ p.1 % 2 = p.2.1 % 2 := by
  unfold ntype3
  split_ifs with h1 h2 <;> simp_all

/-- C4: after lattice construction including the edge re-orientation step,
every edge `(u, v)` of the built graph satisfies `role(u) ≠ sink` and
`role(v) ≠ source`, for every resolution `N ≥ 1` and either radius mode. -/
theorem built_edges_role_invariant (N : ℕ) (hN : 1 ≤ N) (radii_iters : ℕ)
    (symmetric : Bool) (draw : Edge3 → ℝ) (e : Edge3)
    (he : e ∈ (create_network_multiple_sources_and_sinks N radii_iters symmetric
      draw).edges) :
    (create_network_multiple_sources_and_sinks N radii_iters symmetric draw).ntype
        e.1 ≠ Ntype.sink ∧
    (create_network_multiple_sources_and_sinks N radii_iters symmetric draw).ntype
        e.2 ≠ Ntype.source := by
  have he' : e ∈ builtEdges N := he
  obtain ⟨e0, he0, rfl⟩ := List.mem_map.mp he'
  obtain ⟨x, y, z, hx, hy, hz, hcase⟩ := mem_latticeEdges.mp he0
  show ntype3 N (orientEdge N e0).1 ≠ Ntype.sink ∧
    ntype3 N (orientEdge N e0).2 ≠ Ntype.source
  rcases hcase with ⟨hb, rfl⟩ | ⟨hb, rfl⟩ | ⟨hb, rfl⟩ <;>
    (unfold orientEdge
     split_ifs with hcond <;>
       (simp only [ne_eq, ntype3_eq_sink_iff, ntype3_eq_source_iff] at hcond ⊢
        omega))

/-- C4 witness: the role invariant at the concrete built edge
`((0,0,0), (1,0,0))` of the resolution-2 lattice. -/
theorem built_edges_role_invariant_witness :
    (((0, 0, 0), (1, 0, 0)) : Edge3) ∈
      (create_network_multiple_sources_and_sinks 2 2 true fun _ => 0).edges ∧
    ((create_network_multiple_sources_and_sinks 2 2 true fun _ => 0).ntype
        (0, 0, 0) ≠ Ntype.sink ∧
      (create_network_multiple_sources_and_sinks 2 2 true fun _ => 0).ntype
        (1, 0, 0) ≠ Ntype.source) :=
  ⟨by decide,
    built_edges_role_invariant 2 (by norm_num) 2 true (fun _ => 0)
      ((0, 0, 0), (1, 0, 0)) (by decide)⟩

/-- A list sum over `range n` is the corresponding finite sum. -/
theorem sum_map_range (f : ℕ → ℕ) (n : ℕ) :
    ((List.range n).map f).sum = ∑ i ∈ Finset.range n, f i := by
  induction n with
  | zero => simp
  | succ n ih =>
    rw [List.range_succ, List.map_append, List.sum_append, Finset.sum_range_succ, ih]
    simp

/-- The node-construction loop creates exactly `N ^ 3` nodes. -/
theorem latticeNodes_length (N : ℕ) : (latticeNodes N).length = N ^ 3 := by
  unfold latticeNodes
  simp only [List.length_flatMap, List.map_map, Function.comp_def, List.length_map,
    List.length_range, sum_map_range, Finset.sum_const, Finset.card_range,
    smul_eq_mul]
  ring

/-- Counting the boundary guard over one axis. -/
theorem sum_guard_range (n : ℕ) :
    (∑ i ∈ Finset.range n, if i < n - 1 then 1 else 0) = n - 1 := by
  have hfilter : (Finset.range n).filter (fun i => i < n - 1) = Finset.range (n - 1) := by
    ext i
    simp only [Finset.mem_filter, Finset.mem_range]
    omega
  rw [Finset.sum_boole, hfilter, Finset.card_range]
  simp

/-- The edge-construction loop creates exactly `3 · N² · (N-1)` edges. -/
theorem latticeEdges_length (N : ℕ) :
    (latticeEdges N).length = 3 * N ^ 2 * (N - 1) := by
  unfold latticeEdges
  simp only [List.length_flatMap, List.map_map, Function.comp_def, List.length_append,
    apply_ite List.length, List.length_singleton, List.length_nil, sum_map_range]
  have hz : ∀ x y : ℕ,
      (∑ z ∈ Finset.range N,
        (((if x < N - 1 then 1 else 0) + (if y < N - 1 then 1 else 0)) +
          (if z < N - 1 then 1 else 0))) =
      (N * (if x < N - 1 then 1 else 0) + N * (if y < N - 1 then 1 else 0)) +
        (N - 1) := by
    intro x y
    rw [Finset.sum_add_distrib, Finset.sum_add_distrib, Finset.sum_const,
      Finset.card_range, smul_eq_mul, Finset.sum_const, Finset.card_range,
      smul_eq_mul, sum_guard_range]
  simp only [hz]
  have hy : ∀ x : ℕ,
      (∑ y ∈ Finset.range N,
        ((N * (if x < N - 1 then 1 else 0) + N * (if y < N - 1 then 1 else 0)) +
          (N - 1))) =
      (N * (N * (if x < N - 1 then 1 else 0)) + N * (N - 1)) + N * (N - 1) := by
    intro x
    rw [Finset.sum_add_distrib, Finset.sum_add_distrib, Finset.sum_const,
      Finset.card_range, smul_eq_mul, ← Finset.mul_sum, sum_guard_range,
      Finset.sum_const, Finset.card_range, smul_eq_mul]
  simp only [hy]
  ring_nf
  rw [Finset.sum_add_distrib, Finset.sum_const, Finset.card_range, smul_eq_mul,
    ← Finset.mul_sum, sum_guard_range]
  ring

/-- Re-orientation preserves the number of edges. -/
theorem builtEdges_length (N : ℕ) :
    (builtEdges N).length = 3 * N ^ 2 * (N - 1) := by
  unfold builtEdges
  rw [List.length_map, latticeEdges_length]

/-- C6: for every resolution `N ≥ 1` the built graph has exactly `N³` nodes,
the node positions are `(delta·(x+1), delta·(y+1), delta·(z+1))` with
`delta = 1/(N+1)`, the construction loop joins only positive-direction axis
neighbours, every edge of the built graph joins two axis neighbours (one
the positive-direction neighbour of the other), and the built graph has at
most `3·N²·(N-1)` edges. -/
theorem lattice_structure_spec (N : ℕ) (hN : 1 ≤ N) (radii_iters : ℕ)
    (symmetric : Bool) (draw : Edge3 → ℝ) :
    (create_network_multiple_sources_and_sinks N radii_iters symmetric
        draw).nodes.length = N ^ 3 ∧
    (∀ p ∈ (create_network_multiple_sources_and_sinks N radii_iters symmetric
        draw).nodes,
      (create_network_multiple_sources_and_sinks N radii_iters symmetric
          draw).pos p =
        (1 / ((N : ℝ) + 1) * ((p.1 : ℝ) + 1), 1 / ((N : ℝ) + 1) * ((p.2.1 : ℝ) + 1),
          1 / ((N : ℝ) + 1) * ((p.2.2 : ℝ) + 1))) ∧
    (∀ e ∈ latticeEdges N, isPosNeighbor e.1 e.2) ∧
    (∀ e ∈ (create_network_multiple_sources_and_sinks N radii_iters symmetric
        draw).edges, isPosNeighbor e.1 e.2 ∨ isPosNeighbor e.2 e.1) ∧
    (create_network_multiple_sources_and_sinks N radii_iters symmetric
        draw).edges.length ≤ 3 * N ^ 2 * (N - 1) := by
  have hlattice : ∀ e ∈ latticeEdges N, isPosNeighbor e.1 e.2 := by
    intro e he
    obtain ⟨x, y, z, hx, hy, hz, hcase⟩ := mem_latticeEdges.mp he
    rcases hcase with ⟨hb, rfl⟩ | ⟨hb, rfl⟩ | ⟨hb, rfl⟩
    · exact Or.inl rfl
    · exact Or.inr (Or.inl rfl)
    · exact Or.inr (Or.inr rfl)
  refine ⟨latticeNodes_length N, fun p _ => rfl, hlattice, ?_, ?_⟩
  · intro e he
    have he' : e ∈ builtEdges N := he
    obtain ⟨e0, he0, rfl⟩ := List.mem_map.mp he'
    have h0 := hlattice e0 he0
    unfold orientEdge
    split_ifs with hcond
    · exact Or.inr h0
    · exact Or.inl h0
  · exact le_of_eq (builtEdges_length N)

/-- C6 witness: the structural facts at resolution 2. -/
theorem lattice_structure_spec_witness :
    (create_network_multiple_sources_and_sinks 2 2 true fun _ => 0).nodes.length =
      2 ^ 3 :=
  (lattice_structure_spec 2 (by norm_num) 2 true fun _ => 0).1

/-- Folding constant updates over a list sets every listed key to the
constant. -/
theorem foldl_update_not_mem {E β : Type} [DecidableEq E] (v : β) :
    ∀ (l : List E) (r : E → β) (e : E), e ∉ l →
      (l.foldl (fun r' e' => Function.update r' e' v) r) e = r e := by
  intro l
  induction l with
  | nil => intro r e _; rfl
  | cons a as ih =>
    intro r e he
    have hea : e ≠ a := fun h => he (h ▸ List.mem_cons_self a as)
    have heas : e ∉ as := fun h => he (List.mem_cons_of_mem a h)
    simp only [List.foldl_cons]
    rw [ih _ e heas, Function.update_noteq hea]

/-- Folding constant updates over a list evaluates to the constant on every
listed key. -/
theorem foldl_update_const_of_mem {E β : Type} [DecidableEq E] (v : β) :
    ∀ (l : List E) (r : E → β) (e : E), e ∈ l →
      (l.foldl (fun r' e' => Function.update r' e' v) r) e = v := by
  intro l
  induction l with
  | nil => intro r e he; simp at he
  | cons a as ih =>
    intro r e he
    simp only [List.foldl_cons]
    by_cases hmem : e ∈ as
    · exact ih _ e hmem
    · have hea : e = a := by
        rcases List.mem_cons.mp he with h | h
        · exact h
        · exact absurd h hmem
      subst hea
      rw [foldl_update_not_mem v as _ e hmem, Function.update_same]

/-- C7: in symmetric mode, every edge of the built graph carries the radius
`1/((N+1)·sqrt(90π))`, exactly and deterministically, for every `N ≥ 1`
(the `draw` argument of the random branch is ignored). -/
theorem symmetric_radius_spec (N : ℕ) (hN : 1 ≤ N) (radii_iters : ℕ)
    (draw : Edge3 → ℝ) (e : Edge3)
    (he : e ∈ (create_network_multiple_sources_and_sinks N radii_iters true
      draw).edges) :
    (create_network_multiple_sources_and_sinks N radii_iters true draw).radius e =
      1 / ((N + 1) * Real.sqrt (90 * Real.pi)) := by
  have he' : e ∈ builtEdges N := he
  show assignSymRadii N e = _
  unfold assignSymRadii
  exact foldl_update_const_of_mem (symRadiusVal N) (builtEdges N) _ e he'

/-- C7 witness: the symmetric radius of the concrete edge
`((0,0,0), (1,0,0))` of the resolution-2 lattice. -/
theorem symmetric_radius_spec_witness :
    (create_network_multiple_sources_and_sinks 2 2 true fun _ => 0).radius
        ((0, 0, 0), (1, 0, 0)) =
      1 / ((((2 : ℕ) : ℝ) + 1) * Real.sqrt (90 * Real.pi)) :=
  symmetric_radius_spec 2 (by norm_num) 2 (fun _ => 0) ((0, 0, 0), (1, 0, 0))
    (by decide)

/-- A fold of `Nat.min` stays below its seed, below every element, and lands
on the seed or an element. -/
theorem foldl_min_spec :
    ∀ (l : List ℕ) (a : ℕ),
      (l.foldl min a = a ∨ l.foldl min a ∈ l) ∧
      l.foldl min a ≤ a ∧ ∀ x ∈ l, l.foldl min a ≤ x := by
  intro l
  induction l with
  | nil => intro a; exact ⟨Or.inl rfl, le_refl a, by simp⟩
  | cons b bs ih =>
    intro a
    obtain ⟨hmem, hle, hall⟩ := ih (min a b)
    simp only [List.foldl_cons]
    refine ⟨?_, le_trans hle (min_le_left a b), ?_⟩
    · rcases hmem with h | h
      · rcases min_choice a b with hc | hc
        · exact Or.inl (h.trans hc)
        · refine Or.inr ?_
          rw [h, hc]
          exact List.mem_cons_self b bs
      · exact Or.inr (List.mem_cons_of_mem b h)
    · intro x hx
      rcases List.mem_cons.mp hx with rfl | hx
      · exact le_trans hle (min_le_right a x)
      · exact hall x hx

/-- `min_or_zero` of a non-empty list is an element of the list. -/
theorem min_or_zero_mem : ∀ {l : List ℕ}, l ≠ [] → min_or_zero l ∈ l := by
  intro l hl
  match l with
  | [] => exact absurd rfl hl
  | x :: xs =>
    show xs.foldl min x ∈ x :: xs
    rcases (foldl_min_spec xs x).1 with h | h
    · rw [h]
      exact List.mem_cons_self x xs
    · exact List.mem_cons_of_mem x h

/-- `min_or_zero` is a lower bound of the list. -/
theorem min_or_zero_le : ∀ {l : List ℕ}, ∀ x ∈ l, min_or_zero l ≤ x := by
  intro l x hx
  match l with
  | [] => simp at hx
  | y :: ys =>
    show ys.foldl min y ≤ x
    rcases List.mem_cons.mp hx with rfl | hx
    · exact (foldl_min_spec ys x).2.1
    · exact (foldl_min_spec ys y).2.2 x hx

/-- The Python pattern `0 if empty else min(...)` applied to the successful
results of a fallible query over a list: zero fall-back, lower bound, and
attainment. -/
theorem min_or_zero_filterMap_spec {V : Type} (l : List V) (f : V → Option ℕ) :
    ((∀ s ∈ l, f s = none) → min_or_zero (l.filterMap f) = 0) ∧
    (∀ s ∈ l, ∀ d, f s = some d → min_or_zero (l.filterMap f) ≤ d) ∧
    ((∃ s ∈ l, f s ≠ none) →
      ∃ s ∈ l, f s = some (min_or_zero (l.filterMap f))) := by
  refine ⟨?_, ?_, ?_⟩
  · intro h
    rw [List.filterMap_eq_nil_iff.mpr h]
    rfl
  · intro s hs d hd
    exact min_or_zero_le d (List.mem_filterMap.mpr ⟨s, hs, hd⟩)
  · rintro ⟨s, hs, hne⟩
    obtain ⟨d, hd⟩ := Option.ne_none_iff_exists'.mp hne
    have hnonempty : l.filterMap f ≠ [] :=
      List.ne_nil_of_mem (List.mem_filterMap.mpr ⟨s, hs, hd⟩)
    obtain ⟨t, ht, hft⟩ := List.mem_filterMap.mp (min_or_zero_mem hnonempty)
    exact ⟨t, ht, hft⟩

/-- C5: after `assign_distances_from_source_and_sink_nodes` runs, every edge
`(u, v)` carries `src_dist` equal to the minimum directed graph distance
from a source-role node to `u`, taken over the source nodes from which a
path to `u` exists, with `0` as the no-path fall-back; `sink_dist` is the
analogous minimum from `v` to the sink-role nodes; and
`center_dist = |src_dist - sink_dist| ≥ 0`. -/
theorem assign_distances_spec {V : Type} [DecidableEq V] (nodes : List V)
    (edges : List (V × V)) (ntype : V → Ntype) (e : V × V) (he : e ∈ edges) :
    ((∀ s ∈ nodes, ntype s = Ntype.source → spl nodes edges s e.1 = none) →
      (assign_distances nodes edges ntype e).1 = 0) ∧
    (∀ s ∈ nodes, ntype s = Ntype.source → ∀ d, spl nodes edges s e.1 = some d →
      (assign_distances nodes edges ntype e).1 ≤ d) ∧
    ((∃ s ∈ nodes, ntype s = Ntype.source ∧ spl nodes edges s e.1 ≠ none) →
      ∃ s ∈ nodes, ntype s = Ntype.source ∧
        spl nodes edges s e.1 = some (assign_distances nodes edges ntype e).1) ∧
    ((∀ t ∈ nodes, ntype t = Ntype.sink → spl nodes edges e.2 t = none) →
      (assign_distances nodes edges ntype e).2.1 = 0) ∧
    (∀ t ∈ nodes, ntype t = Ntype.sink → ∀ d, spl nodes edges e.2 t = some d →
      (assign_distances nodes edges ntype e).2.1 ≤ d) ∧
    ((∃ t ∈ nodes, ntype t = Ntype.sink ∧ spl nodes edges e.2 t ≠ none) →
      ∃ t ∈ nodes, ntype t = Ntype.sink ∧
        spl nodes edges e.2 t = some (assign_distances nodes edges ntype e).2.1) ∧
    (assign_distances nodes edges ntype e).2.2 =
      |((assign_distances nodes edges ntype e).1 : ℤ) -
        ((assign_distances nodes edges ntype e).2.1 : ℤ)| ∧
    0 ≤ (assign_distances nodes edges ntype e).2.2 := by
  have hsrc := min_or_zero_filterMap_spec
    (nodes.filter fun n => decide (ntype n = Ntype.source))
    (fun s => spl nodes edges s e.1)
  have hsink := min_or_zero_filterMap_spec
    (nodes.filter fun n => decide (ntype n = Ntype.sink))
    (fun t => spl nodes edges e.2 t)
  have hmemsrc : ∀ s, s ∈ (nodes.filter fun n => decide (ntype n = Ntype.source)) ↔
      s ∈ nodes ∧ ntype s = Ntype.source := by
    intro s
    simp [List.mem_filter]
  have hmemsink : ∀ t, t ∈ (nodes.filter fun n => decide (ntype n = Ntype.sink)) ↔
      t ∈ nodes ∧ ntype t = Ntype.sink := by
    intro t
    simp [List.mem_filter]
  refine ⟨?_, ?_, ?_, ?_, ?_, ?_, rfl, abs_nonneg _⟩
  · intro h
    exact hsrc.1 fun s hs => h s (hmemsrc s |>.mp hs).1 (hmemsrc s |>.mp hs).2
  · intro s hs hrole d hd
    exact hsrc.2.1 s ((hmemsrc s).mpr ⟨hs, hrole⟩) d hd
  · rintro ⟨s, hs, hrole, hne⟩
    obtain ⟨t, ht, hft⟩ := hsrc.2.2 ⟨s, (hmemsrc s).mpr ⟨hs, hrole⟩, hne⟩
    exact ⟨t, ((hmemsrc t).mp ht).1, ((hmemsrc t).mp ht).2, hft⟩
  · intro h
    exact hsink.1 fun t ht => h t (hmemsink t |>.mp ht).1 (hmemsink t |>.mp ht).2
  · intro t ht hrole d hd
    exact hsink.2.1 t ((hmemsink t).mpr ⟨ht, hrole⟩) d hd
  · rintro ⟨t, ht, hrole, hne⟩
    obtain ⟨u, hu, hfu⟩ := hsink.2.2 ⟨t, (hmemsink t).mpr ⟨ht, hrole⟩, hne⟩
    exact ⟨u, ((hmemsink u).mp hu).1, ((hmemsink u).mp hu).2, hfu⟩

/-- C5 witness: the distance annotations of the edge `(0, 1)` of the path
graph `0 → 1 → 2` whose node 0 is a source and node 2 a sink. -/
theorem assign_distances_spec_witness :
    (assign_distances [0, 1, 2] [(0, 1), (1, 2)] exNt5 (0, 1)).2.2 =
      |((assign_distances [0, 1, 2] [(0, 1), (1, 2)] exNt5 (0, 1)).1 : ℤ) -
        ((assign_distances [0, 1, 2] [(0, 1), (1, 2)] exNt5 (0, 1)).2.1 : ℤ)| :=
  (assign_distances_spec [0, 1, 2] [(0, 1), (1, 2)] exNt5 (0, 1)
    (by decide)).2.2.2.2.2.2.1

/-- The conditional accumulation of `total_flow` equals the sum over the
filtered edge list. -/
theorem total_flow_eq_sum {V : Type} [DecidableEq V] (G : Graph V)
    (itt volume : V × V → ℝ) :
    total_flow G itt volume =
      ((G.edges.filter fun e => decide (e.1 = G.source)).map
        fun e => itt e * volume e).sum := by
  unfold total_flow
  have key : ∀ (l : List (V × V)) (q : ℝ),
      l.foldl (fun q e => if e.1 = G.source then q + itt e * volume e else q) q =
        q + ((l.filter fun e => decide (e.1 = G.source)).map
          fun e => itt e * volume e).sum := by
    intro l
    induction l with
    | nil => intro q; simp
    | cons a as ih =>
      intro q
      by_cases h : a.1 = G.source
      · simp only [List.foldl_cons, if_pos h, List.filter_cons, decide_eq_true h,
          if_true, List.map_cons, List.sum_cons, ih]
        ring
      · simp only [List.foldl_cons, if_neg h, List.filter_cons,
          decide_eq_false h, Bool.false_eq_true, if_false, ih]
  rw [key, zero_add]

/-- C8: `total_flow` sums `inverse_transit_time × volume` over exactly the
edges whose source endpoint is the graph's designated `source` node, and
`total_resistance` is `25 × 133.322387415` divided by that flow; when the
flow is exactly zero the division fails with a surfaced division-by-zero
error (`none`), never returning a number. -/
theorem total_flow_resistance_spec {V : Type} [DecidableEq V] (G : Graph V)
    (itt volume : V × V → ℝ) :
    total_flow G itt volume =
      ((G.edges.filter fun e => decide (e.1 = G.source)).map
        fun e => itt e * volume e).sum ∧
    (total_flow G itt volume = 0 → total_resistance G itt volume = none) ∧
    (total_flow G itt volume ≠ 0 →
      total_resistance G itt volume =
        some (25 * 133.322387415 / total_flow G itt volume)) := by
  refine ⟨total_flow_eq_sum G itt volume, ?_, ?_⟩ <;>
    (intro h
     unfold total_resistance
     simp [h])

/-- C8 witness: on the edgeless graph the flow is zero and the resistance
computation surfaces the division-by-zero failure. -/
theorem total_flow_resistance_spec_witness :
    total_flow exG0 (fun _ => 0) (fun _ => 0) = 0 ∧
    total_resistance exG0 (fun _ => 0) (fun _ => 0) = none :=
  ⟨rfl, (total_flow_resistance_spec exG0 (fun _ => 0) (fun _ => 0)).2.1 rfl⟩

/-- `add_col` preserves the length of the accumulator. -/
theorem add_col_length (c : ℕ → ℝ) :
    ∀ (l : List ℝ) (k : ℕ), (add_col c l k).length = l.length := by
  intro l
  induction l with
  | nil => intro k; rfl
  | cons w ws ih =>
    intro k
    simp only [add_col, List.length_cons, ih]

/-- Entry-wise description of `add_col`. -/
theorem add_col_getD (c : ℕ → ℝ) :
    ∀ (l : List ℝ) (k i : ℕ), i < l.length →
      (add_col c l k).getD i 0 = l.getD i 0 + c (k + i) := by
  intro l
  induction l with
  | nil => intro k i h; simp at h
  | cons w ws ih =>
    intro k i h
    cases i with
    | zero => simp [add_col]
    | succ i =>
      have hi : i < ws.length := by simpa using h
      simp only [add_col, List.getD_cons_succ]
      rw [ih (k + 1) i hi, show k + 1 + i = k + (i + 1) by omega]

/-- `add_col` with an all-zero column is the identity. -/
theorem add_col_zero (c : ℕ → ℝ) (hc : ∀ t, c t = 0) :
    ∀ (l : List ℝ) (k : ℕ), add_col c l k = l := by
  intro l
  induction l with
  | nil => intro k; rfl
  | cons w ws ih =>
    intro k
    simp only [add_col, hc, add_zero, ih]

/-- Folding `add_col` over the edge list preserves the length and adds the
per-edge columns point-wise. -/
theorem foldl_add_col_spec {β : Type} (col : β → ℕ → ℝ) :
    ∀ (es : List β) (W : List ℝ),
      ((es.foldl (fun Wt e => add_col (col e) Wt 0) W).length = W.length) ∧
      (∀ i, i < W.length →
        (es.foldl (fun Wt e => add_col (col e) Wt 0) W).getD i 0 =
          W.getD i 0 + (es.map fun e => col e i).sum) := by
  intro es
  induction es with
  | nil => intro W; exact ⟨rfl, fun i _ => by simp⟩
  | cons e es ih =>
    intro W
    simp only [List.foldl_cons]
    obtain ⟨ihlen, ihget⟩ := ih (add_col (col e) W 0)
    refine ⟨ihlen.trans (add_col_length (col e) W 0), ?_⟩
    intro i hi
    have hi' : i < (add_col (col e) W 0).length := by
      rwa [add_col_length]
    rw [ihget i hi', add_col_getD (col e) W 0 i hi, zero_add, List.map_cons,
      List.sum_cons]
    ring

/-- C9: `get_Wt` returns an array of the same length as `times` whose entry
at time step `t` is the sum over edges of `65 × volume × soln[t, offset +
idx]`, with offset `E` normally and `2E` with the `liposomes` flag; an
all-zero solution array yields an all-zero output for both flag values. -/
theorem get_Wt_spec {V : Type} [DecidableEq V] (G : Graph V) (volume : V × V → ℝ)
    (idx : V × V → ℕ) (times : List ℝ) (soln : ℕ → ℕ → ℝ) (liposomes : Bool) :
    (get_Wt G volume idx times soln liposomes).length = times.length ∧
    (∀ i, i < times.length →
      (get_Wt G volume idx times soln liposomes).getD i 0 =
        (G.edges.map fun e => 65 * volume e *
          soln i ((if liposomes then 2 * G.edges.length else G.edges.length) +
            idx e)).sum) ∧
    ((∀ t s, soln t s = 0) →
      get_Wt G volume idx times soln liposomes = times.map fun _ => 0) := by
  have hbase : (times.map fun _ => (0 : ℝ)).length = times.length :=
    List.length_map times _
  have hfold := foldl_add_col_spec
    (fun e t => 65 * volume e *
      soln t ((if liposomes then 2 * G.edges.length else G.edges.length) + idx e))
    G.edges (times.map fun _ => 0)
  refine ⟨?_, ?_, ?_⟩
  · show (G.edges.foldl _ (times.map fun _ => 0)).length = times.length
    rw [hfold.1, hbase]
  · intro i hi
    have hzero : (times.map fun _ => (0 : ℝ)).getD i 0 = 0 := by
      rcases lt_or_ge i times.length with hlt | hge
      · rw [List.getD_eq_getElem _ _ (hbase ▸ hlt)]
        simp
      · rw [List.getD_eq_default _ _ (hbase ▸ hge)]
    show (G.edges.foldl _ (times.map fun _ => 0)).getD i 0 = _
    rw [hfold.2 i (hbase ▸ hi), hzero, zero_add]
  · intro hs
    show G.edges.foldl _ (times.map fun _ => 0) = times.map fun _ => 0
    have hstep : ∀ (es : List (V × V)) (W : List ℝ),
        es.foldl (fun Wt e => add_col (fun t => 65 * volume e *
          soln t ((if liposomes then 2 * G.edges.length else G.edges.length) +
            idx e)) Wt 0) W = W := by
      intro es
      induction es with
      | nil => intro W; rfl
      | cons e es ih =>
        intro W
        simp only [List.foldl_cons]
        rw [add_col_zero _ (fun t => by rw [hs, mul_zero]), ih]
    exact hstep G.edges _

/-- C9 witness: `get_Wt` on the one-edge graph with a zero solution array
and a one-entry time grid has the same length as the time grid. -/
theorem get_Wt_spec_witness :
    (get_Wt exG1 (fun _ => 0) (fun _ => 0) [(0 : ℝ)] (fun _ _ => 0) false).length =
      [(0 : ℝ)].length :=
  (get_Wt_spec exG1 (fun _ => 0) (fun _ => 0) [(0 : ℝ)] (fun _ _ => 0) false).1

/-- C10 counterexample: the constructor performs no validation of `N`:
called with the non-positive resolution `N = 0` it completes normally and
returns the empty graph instead of signalling an `InvalidParameter`
failure before construction. -/
theorem create_network_no_validation_at_zero :
    (create_network_multiple_sources_and_sinks 0 2 true fun _ => 0).nodes = [] ∧
    (create_network_multiple_sources_and_sinks 0 2 true fun _ => 0).edges = [] := by
  exact ⟨rfl, rfl⟩

/-- C10 (amended): the constructor validates nothing and is total over
non-negative resolutions: for every `N` (including `N = 0`) and either
radius mode it completes normally and returns a graph with `N³` nodes, so
in particular it raises no error for any valid `N ≥ 1`, and `N = 0` yields
the empty graph rather than an `InvalidParameter` failure. -/
theorem create_network_total_spec (N radii_iters : ℕ) (symmetric : Bool)
    (draw : Edge3 → ℝ) :
    (create_network_multiple_sources_and_sinks N radii_iters symmetric
        draw).nodes.length = N ^ 3 ∧
    (create_network_multiple_sources_and_sinks 0 radii_iters symmetric
        draw).nodes.length = 0 :=
  ⟨latticeNodes_length N, latticeNodes_length 0⟩

end Hemo
